import Mathlib

/-!
Shallow embedding of the Bili_to_MD synchronization pipeline.

The definitions below are translated from the Python sources:
  - `src/data_sync.py`   (class `DataSyncManager`)
  - `src/get_subtitle.py` (class `SubtitleExtractor`)
  - `main.py`            (`sync_workflow`)

Python strings are modelled as `String` (with the character-level work done
on `String.data : List Char`), Python sets of identifiers as `Finset String`,
and the filesystem as an explicit list of already-existing file names.
-/

/-- Model of Python's whitespace class (the ASCII part of `\s` / `str.strip()`):
space, tab, newline, carriage return, vertical tab and form feed. -/
def pyWs (c : Char) : Bool :=
  c = ' ' || c = '\t' || c = '\n' || c = '\r' || c = '\x0b' || c = '\x0c'

/-- Model of Python `str.strip(...)` for a character class `p`: remove the
longest run of characters satisfying `p` from both ends. -/
def stripEnds (p : Char → Bool) (l : List Char) : List Char :=
  ((l.dropWhile p).reverse.dropWhile p).reverse

/-- Model of `re.sub(r'\s+', ' ', s)` from `DataSyncManager.sanitize_filename`:
every maximal run of whitespace characters becomes a single space. -/
def collapseWs : List Char → List Char
  | [] => []
  | [c] => if pyWs c then [' '] else [c]
  | c :: d :: rest =>
    if pyWs c && pyWs d then collapseWs (d :: rest)
    else (if pyWs c then ' ' else c) :: collapseWs (d :: rest)

/-- The character class of `re.sub(r'[<>:"/\\|?*]', '_', filename)` in
`DataSyncManager.sanitize_filename`. -/
def isIllegal (c : Char) : Bool :=
  c = '<' || c = '>' || c = ':' || c = '"' || c = '/' || c = '\\' || c = '|' ||
    c = '?' || c = '*'

/-- Character-level body of `DataSyncManager.sanitize_filename`:
replace illegal characters by `_`, collapse whitespace runs and strip
whitespace, strip dots, truncate to `maxLength` re-stripping whitespace,
and fall back to `"untitled"` when empty. -/
def sanitizeList (l : List Char) (maxLength : Nat) : List Char :=
  let s1 := l.map fun c => if isIllegal c then '_' else c
  let s2 := stripEnds pyWs (collapseWs s1)
  let s3 := stripEnds (fun c => c = '.') s2
  let s4 := if maxLength < s3.length then stripEnds pyWs (s3.take maxLength) else s3
  if s4.isEmpty then "untitled".data else s4

/-- `DataSyncManager.sanitize_filename` (the Python default of
`max_length` is 100; here the bound is always passed explicitly). -/
def sanitize_filename (filename : String) (maxLength : Nat) : String :=
  ⟨sanitizeList filename.data maxLength⟩

/-- Model of Python `str.replace(old, new)` for a two-character pattern
`[a, b]`: scan left to right, replacing non-overlapping occurrences. -/
def replace2 (a b : Char) (new : List Char) : List Char → List Char
  | [] => []
  | [c] => [c]
  | c :: d :: rest =>
    if c = a && d = b then new ++ replace2 a b new rest
    else c :: replace2 a b new (d :: rest)

/-- Model of `re.sub(r'\n{3,}', '\n\n', s)` from
`DataSyncManager.clean_markdown_content`: every maximal run of three or
more newlines becomes exactly two newlines. -/
def collapseNl : List Char → List Char
  | [] => []
  | [c] => [c]
  | [c, d] => [c, d]
  | c :: d :: e :: rest =>
    if c = '\n' && d = '\n' && e = '\n' then collapseNl (d :: e :: rest)
    else c :: collapseNl (d :: e :: rest)

/-- Character-level body of `DataSyncManager.clean_markdown_content`:
protect doubled backslashes with the sentinel `'\x00'`, unescape the literal
two-character escapes, restore the sentinel, normalize line endings, strip,
and collapse runs of three or more newlines. -/
def cleanList (l : List Char) : List Char :=
  if l.isEmpty then []
  else
    let c1 := replace2 '\\' '\\' ['\x00'] l
    let c2 := replace2 '\\' 'n' ['\n'] c1
    let c3 := replace2 '\\' 't' ['\t'] c2
    let c4 := replace2 '\\' 'r' ['\r'] c3
    let c5 := replace2 '\\' '"' ['"'] c4
    let c6 := replace2 '\\' '\'' ['\''] c5
    let c7 := c6.map fun c => if c = '\x00' then '\\' else c
    let c8 := replace2 '\r' '\n' ['\n'] c7
    let c9 := c8.map fun c => if c = '\r' then '\n' else c
    collapseNl (stripEnds pyWs c9)

/-- `DataSyncManager.clean_markdown_content`. -/
def clean_markdown_content (content : String) : String :=
  ⟨cleanList content.data⟩

/-- The set computed by `DataSyncManager.compare_and_filter`:
`set(current_bvs) - synced_bvs`. -/
def compute_delta (currentBvs : List String) (syncedBvs : Finset String) : Finset String :=
  currentBvs.toFinset \ syncedBvs

/-- `DataSyncManager.compare_and_filter`: `list(set(current_bvs) - synced_bvs)`.
The Python list holds each element of the set difference exactly once, in an
order the language does not specify; this embedding returns one such
enumeration. -/
def compare_and_filter (currentBvs : List String) (syncedBvs : Finset String) : List String :=
  currentBvs.dedup.filter fun b => decide (b ∉ syncedBvs)

/-- A possible result of Python's `list(s)` on a set `s`: each element of `s`
exactly once, in some order. -/
def IsIterOrder (l : List String) (s : Finset String) : Prop :=
  l.Nodup ∧ l.toFinset = s

/-- Lexicographic comparison of character lists by code point — the order
Python's `sorted` and string comparison use. -/
def lexLe : List Char → List Char → Bool
  | [], _ => true
  | _ :: _, [] => false
  | c :: cs, d :: ds => if c = d then lexLe cs ds else decide (c < d)

/-- Python's `<=` on strings (lexicographic by code point). -/
def strLe (s t : String) : Prop := lexLe s.data t.data = true

instance : DecidableRel strLe := fun s t => by unfold strLe; infer_instance

/-- Model of Python's `sorted` on a list of strings. -/
def sortStrings (l : List String) : List String := l.insertionSort strLe

/-- `DataSyncManager.load_sync_record`: the record files for the collection
are sorted by file name in reverse order, the newest is parsed, and the set
of its `synced_bvs` entries is returned; with no record files the result is
the empty set.  A record file is modelled as its name paired with the
`synced_bvs` list it contains. -/
def load_sync_record (recordFiles : List (String × List String)) : Finset String :=
  match recordFiles.insertionSort (fun a b => strLe b.1 a.1) with
  | [] => ∅
  | latest :: _ => latest.2.toFinset

/-- One subtitle track as consumed by
`DataSyncManager.extract_subtitle_content`: the dictionary fields
`reformatted_content` and `content`, a missing field being the empty
string (Python `dict.get(..., '')`). -/
structure Subtitle where
  reformatted_content : String
  content : String
deriving DecidableEq

/-- Python truthiness test `s and s.strip()`: the string is non-blank. -/
def nonBlank (s : String) : Bool := !(stripEnds pyWs s.data).isEmpty

/-- `DataSyncManager.extract_subtitle_content`, after the call to
`get_video_subtitles` has produced `success` and the track list: first pass
over all tracks looking for non-blank `reformatted_content`, second pass
over all tracks looking for non-blank `content`, placeholder `"无视频字幕"`
otherwise (and when the winning track cleans to the empty string). -/
def extract_subtitle_content (success : Bool) (subtitles : List Subtitle) : String :=
  if !success then "无视频字幕"
  else if subtitles.isEmpty then "无视频字幕"
  else
    match subtitles.find? (fun s => nonBlank s.reformatted_content) with
    | some s =>
      let cleaned := clean_markdown_content s.reformatted_content
      if cleaned = "" then "无视频字幕" else cleaned
    | none =>
      match subtitles.find? (fun s => nonBlank s.content) with
      | some s =>
        let cleaned := clean_markdown_content s.content
        if cleaned = "" then "无视频字幕" else cleaned
      | none => "无视频字幕"

/-- The decimal digit character for `n` (`'0'` has code point 48). -/
def digitChar (n : Nat) : Char := Char.ofNat (48 + n)

/-- Fuel-driven decimal rendering; with fuel at least the digit count this
is the standard most-significant-first decimal form. -/
def natReprAux : Nat → Nat → List Char
  | 0, _ => []
  | fuel + 1, n =>
    if n < 10 then [digitChar n]
    else natReprAux fuel (n / 10) ++ [digitChar (n % 10)]

/-- Python `str(n)` for a natural number: decimal digits. -/
def natRepr (n : Nat) : List Char := natReprAux (n + 1) n

/-- Decimal value of a digit character (0 for non-digits; only applied to
digit characters in the proofs). -/
def digitVal (c : Char) : Nat :=
  if c = '0' then 0 else if c = '1' then 1 else if c = '2' then 2
  else if c = '3' then 3 else if c = '4' then 4 else if c = '5' then 5
  else if c = '6' then 6 else if c = '7' then 7 else if c = '8' then 8 else 9

/-- Read a digit list back as a number (inverse of `natRepr`). -/
def parseNat (l : List Char) : Nat := l.foldl (fun a c => 10 * a + digitVal c) 0

/-- The file name probed at step `k` of the collision loop in
`DataSyncManager.save_to_markdown`: `{safe}.md` first, then
`{safe}_{k}.md` for `k = 1, 2, ...`. -/
def candidate (safe : List Char) : Nat → List Char
  | 0 => safe ++ ['.', 'm', 'd']
  | k + 1 => safe ++ '_' :: (natRepr (k + 1) ++ ['.', 'm', 'd'])

/-- The `while filepath.exists()` loop of `DataSyncManager.save_to_markdown`:
starting from probe index `k`, return the first candidate name not already
present.  The fuel is an artifact of the embedding; `save_filename` passes
enough fuel for the search to always succeed. -/
def findFree (existing : List (List Char)) (safe : List Char) : Nat → Nat → List Char
  | k, 0 => candidate safe k
  | k, fuel + 1 =>
    if candidate safe k ∈ existing then findFree existing safe (k + 1) fuel
    else candidate safe k

/-- The file name `DataSyncManager.save_to_markdown` finally writes to, given
the names already existing in the output directory. -/
def save_filename (existing : List (List Char)) (safe : List Char) : List Char :=
  findFree existing safe 0 (existing.length + 1)

/-- The snapshot object written by `DataSyncManager.update_sync_record`
(minus the `media_id`/`sync_time` metadata): the pair of
`sorted(all_synced_bvs)` and `total_count = len(all_synced_bvs)`. -/
def update_sync_record (allSyncedBvs : List String) : List String × Nat :=
  (sortStrings allSyncedBvs, allSyncedBvs.length)

/-- Outcome of one `DataSyncManager.sync_data` run: the identifiers whose
Markdown write succeeded, the snapshot content if the append step was
reached, and the reported success flag. -/
structure RunOutcome where
  written : List String
  snapshot : Option (List String × Nat)
  ok : Bool
deriving DecidableEq

/-- `DataSyncManager.sync_data`, at identifier granularity: abort on an
empty manifest, return early with no snapshot when the delta is empty,
otherwise write the delta items (`writeOk` abstracts per-item success of
`save_to_markdown`) and append a snapshot built from
`list(set(current_bvs))` — the full manifest, not the delta. -/
def sync_run (currentBvs : List String) (syncedBvs : Finset String)
    (writeOk : String → Bool) : RunOutcome :=
  if currentBvs.isEmpty then ⟨[], none, false⟩
  else
    let targetBvs := compare_and_filter currentBvs syncedBvs
    if targetBvs.isEmpty then ⟨[], none, true⟩
    else
      let items := currentBvs.filter fun b => decide (b ∈ targetBvs)
      if items.isEmpty then ⟨[], none, false⟩
      else
        let written := items.filter writeOk
        let allSynced := currentBvs.dedup
        ⟨written, some (update_sync_record allSynced), true⟩

/-- One subtitle track as consumed by `SubtitleExtractor._select_subtitles`:
only the `lan` language tag matters there, a missing tag being the empty
string (Python `sub.get('lan', '')`). -/
structure Track where
  lan : String
deriving DecidableEq

/-- Model of Python `s.startswith(pat)`: `startsWithList pat.data s.data`. -/
def startsWithList : List Char → List Char → Bool
  | [], _ => true
  | _ :: _, [] => false
  | p :: ps, c :: cs => p = c && startsWithList ps cs

/-- Python `s.startswith(pat)`. -/
def pyStartsWith (s pat : String) : Bool := startsWithList pat.data s.data

/-- The `original_subtitles` list comprehension of
`SubtitleExtractor._select_subtitles`: tracks whose tag is truthy
(non-empty) and does not start with `"ai-"`. -/
def original_subtitles (subtitles : List Track) : List Track :=
  subtitles.filter fun sub => decide (sub.lan ≠ "") && !(pyStartsWith sub.lan "ai-")

/-- The `ai_zh_subtitles` list comprehension of
`SubtitleExtractor._select_subtitles`: tracks whose tag is exactly `"ai-zh"`. -/
def ai_zh_subtitles (subtitles : List Track) : List Track :=
  subtitles.filter fun sub => decide (sub.lan = "ai-zh")

/-- `SubtitleExtractor._select_subtitles`: the original (human) group when
non-empty, else the `"ai-zh"` group when non-empty, else the empty list. -/
def _select_subtitles (subtitles : List Track) : List Track :=
  let originals := original_subtitles subtitles
  if !originals.isEmpty then originals
  else
    let aiZh := ai_zh_subtitles subtitles
    if !aiZh.isEmpty then aiZh else []

/-! ### Order lemmas for `lexLe` (the model of Python string comparison) -/

theorem lexLe_total : ∀ a b : List Char, lexLe a b = true ∨ lexLe b a = true
  | [], _ => Or.inl rfl
  | _ :: _, [] => Or.inr rfl
  | a :: as, b :: bs => by
    by_cases h : a = b
    · subst h
      simp only [lexLe, if_pos rfl]
      exact lexLe_total as bs
    · have h2 : b ≠ a := fun e => h e.symm
      simp only [lexLe, if_neg h, if_neg h2]
      rcases lt_or_gt_of_ne h with hlt | hgt
      · exact Or.inl (decide_eq_true hlt)
      · exact Or.inr (decide_eq_true hgt)

theorem lexLe_trans : ∀ a b c : List Char,
    lexLe a b = true → lexLe b c = true → lexLe a c = true
  | [], _, _, _, _ => rfl
  | _ :: _, [], _, h1, _ => by simp [lexLe] at h1
  | _ :: _, _ :: _, [], _, h2 => by simp [lexLe] at h2
  | a :: as, b :: bs, c :: cs, h1, h2 => by
    simp only [lexLe] at h1 h2 ⊢
    by_cases hab : a = b
    · subst hab
      rw [if_pos rfl] at h1
      by_cases hac : a = c
      · subst hac
        rw [if_pos rfl] at h2 ⊢
        exact lexLe_trans as bs cs h1 h2
      · rw [if_neg hac] at h2 ⊢
        exact h2
    · rw [if_neg hab] at h1
      have hab' : a < b := of_decide_eq_true h1
      by_cases hbc : b = c
      · subst hbc
        rw [if_neg hab]
        exact h1
      · rw [if_neg hbc] at h2
        have hbc' : b < c := of_decide_eq_true h2
        have hac : a < c := lt_trans hab' hbc'
        rw [if_neg (ne_of_lt hac)]
        exact decide_eq_true hac

/-- Claim C1: `compare_and_filter` returns exactly the set difference
`current − synced`: an identifier is in the result iff it occurs in the
current list and not in the synced set, and the result has no duplicates
even when the current list does. -/
theorem compare_and_filter_eq_set_diff :
    ∀ (current : List String) (synced : Finset String),
      (∀ b, b ∈ compare_and_filter current synced ↔ b ∈ current ∧ b ∉ synced) ∧
      (compare_and_filter current synced).Nodup := by
  intro current synced
  refine ⟨fun b => ?_, (List.nodup_dedup current).filter _⟩
  simp [compare_and_filter, List.mem_filter, List.mem_dedup]

/-- Claim C9: the pending list handed to the per-item loop is
`list(set(current) - synced)`, whose order Python does not determine from
the inputs — two admissible set-iteration orders of the same delta differ,
so the processing order is not reproducible independent of hashing. -/
theorem pending_order_not_reproducible :
    ∃ l₁ l₂ : List String,
      IsIterOrder l₁ (compute_delta ["a", "b", "c"] (["c"] : List String).toFinset) ∧
      IsIterOrder l₂ (compute_delta ["a", "b", "c"] (["c"] : List String).toFinset) ∧
      IsIterOrder (compare_and_filter ["a", "b", "c"] (["c"] : List String).toFinset)
        (compute_delta ["a", "b", "c"] (["c"] : List String).toFinset) ∧
      l₁ ≠ l₂ := by
  unfold IsIterOrder compute_delta
  exact ⟨["a", "b"], ["b", "a"], ⟨by decide, by decide⟩, ⟨by decide, by decide⟩,
    ⟨by decide, by decide⟩, by decide⟩

theorem sync_run_snapshot_eq :
    ∀ (current : List String) (synced : Finset String) (writeOk : String → Bool)
      (r : List String × Nat),
      (sync_run current synced writeOk).snapshot = some r →
      r = update_sync_record current.dedup := by
  intro current synced writeOk r h
  unfold sync_run at h
  split at h
  · simp at h
  · dsimp only at h
    split at h
    · simp at h
    · split at h
      · simp at h
      · simp only [Option.some.injEq] at h
        exact h.symm

/-- Claim C3: any snapshot appended by a run records the full current
manifest as synchronized — its `synced_bvs` array is the deduplicated set
of all identifiers of the current manifest, sorted, with `total_count`
equal to the array length; the delta, the sync history and the per-item
write successes do not influence it. -/
theorem snapshot_records_full_manifest :
    ∀ (current : List String) (synced : Finset String) (writeOk : String → Bool)
      (r : List String × Nat),
      (sync_run current synced writeOk).snapshot = some r →
      r.1.Sorted strLe ∧ r.1.Nodup ∧ (∀ b, b ∈ r.1 ↔ b ∈ current) ∧
        r.2 = r.1.length := by
  intro current synced writeOk r h
  have hr := sync_run_snapshot_eq current synced writeOk r h
  subst hr
  have hperm : List.Perm (List.insertionSort strLe current.dedup) current.dedup :=
    List.perm_insertionSort strLe current.dedup
  refine ⟨?_, ?_, ?_, ?_⟩
  · exact @List.sorted_insertionSort String strLe _
      ⟨fun s t => lexLe_total s.data t.data⟩
      ⟨fun s t u => lexLe_trans s.data t.data u.data⟩ current.dedup
  · exact hperm.nodup_iff.mpr (List.nodup_dedup current)
  · intro b
    rw [update_sync_record, sortStrings]
    rw [hperm.mem_iff]
    exact List.mem_dedup
  · exact (hperm.length_eq).symm

/-- Concrete instance of claim C3: a run over the manifest
`["b", "a", "b"]` in which every artifact write fails still appends the
snapshot `(["a", "b"], 2)` — the sorted deduplicated full manifest. -/
theorem snapshot_records_full_manifest_witness :
    (sync_run ["b", "a", "b"] ∅ (fun _ => false)).snapshot = some (["a", "b"], 2) ∧
    ((["a", "b"] : List String).Sorted strLe ∧ (["a", "b"] : List String).Nodup ∧
      (∀ b, b ∈ (["a", "b"] : List String) ↔ b ∈ (["b", "a", "b"] : List String)) ∧
      (((["a", "b"] : List String), 2).2 = (["a", "b"] : List String).length)) :=
  ⟨by decide,
    snapshot_records_full_manifest ["b", "a", "b"] ∅ (fun _ => false) (["a", "b"], 2)
      (by decide)⟩

/-- Claim C4: with no prior snapshot `load_sync_record` yields the empty
set and the delta is the whole manifest; after a run that appended a
snapshot, a second run over the unchanged manifest has an empty delta,
writes nothing, and appends no snapshot. -/
theorem first_run_full_delta_and_idempotence :
    ∀ (current : List String) (synced : Finset String) (writeOk : String → Bool)
      (r : List String × Nat),
      load_sync_record [] = ∅ ∧
      (∀ b, b ∈ compare_and_filter current (load_sync_record []) ↔ b ∈ current) ∧
      ((sync_run current synced writeOk).snapshot = some r →
        compare_and_filter current r.1.toFinset = [] ∧
        (sync_run current r.1.toFinset writeOk).written = [] ∧
        (sync_run current r.1.toFinset writeOk).snapshot = none) := by
  intro current synced writeOk r
  refine ⟨rfl, ?_, ?_⟩
  · intro b
    simp [compare_and_filter, load_sync_record, List.mem_filter, List.mem_dedup]
  · intro h
    have hr := sync_run_snapshot_eq current synced writeOk r h
    have hfin : r.1.toFinset = current.toFinset := by
      rw [hr]
      have hperm : List.Perm (List.insertionSort strLe current.dedup) current.dedup :=
        List.perm_insertionSort strLe current.dedup
      rw [update_sync_record, sortStrings, List.toFinset_eq_of_perm _ _ hperm]
      ext x
      simp [List.mem_dedup]
    have htarget : compare_and_filter current r.1.toFinset = [] := by
      rw [hfin]
      refine List.filter_eq_nil_iff.mpr ?_
      intro a ha
      simp only [List.mem_dedup] at ha
      simp [List.mem_toFinset, ha]
    refine ⟨htarget, ?_, ?_⟩ <;>
      by_cases hc : current.isEmpty <;> simp [sync_run, hc, htarget]

/-! ### Decimal rendering and the collision loop of `save_to_markdown` -/

theorem parseNat_append (l : List Char) (c : Char) :
    parseNat (l ++ [c]) = 10 * parseNat l + digitVal c := by
  unfold parseNat
  rw [List.foldl_append]
  rfl

theorem digitVal_digitChar : ∀ n, n < 10 → digitVal (digitChar n) = n := by decide

theorem parse_natReprAux : ∀ (fuel n : Nat), n < 10 ^ fuel →
    parseNat (natReprAux fuel n) = n := by
  intro fuel
  induction fuel with
  | zero =>
    intro n h
    simp only [pow_zero, Nat.lt_one_iff] at h
    subst h
    rfl
  | succ fuel ih =>
    intro n h
    unfold natReprAux
    by_cases h10 : n < 10
    · rw [if_pos h10]
      show parseNat ([] ++ [digitChar n]) = n
      rw [parseNat_append, digitVal_digitChar n h10]
      simp [parseNat]
    · rw [if_neg h10]
      have hdiv : n / 10 < 10 ^ fuel := by
        have hlt : n < 10 ^ fuel * 10 := by
          rw [← pow_succ]
          exact h
        exact (Nat.div_lt_iff_lt_mul (by norm_num)).mpr hlt
      rw [parseNat_append, ih (n / 10) hdiv,
        digitVal_digitChar (n % 10) (Nat.mod_lt _ (by norm_num))]
      omega

theorem n_lt_ten_pow (n : Nat) : n < 10 ^ (n + 1) :=
  calc n < 2 ^ n := Nat.lt_two_pow n
    _ ≤ 10 ^ n := Nat.pow_le_pow_left (by norm_num) n
    _ ≤ 10 ^ (n + 1) := Nat.pow_le_pow_right (by norm_num) (Nat.le_succ n)

theorem parseNat_natRepr (n : Nat) : parseNat (natRepr n) = n :=
  parse_natReprAux (n + 1) n (n_lt_ten_pow n)

theorem natRepr_injective : Function.Injective natRepr := by
  intro m n h
  have h2 := congrArg parseNat h
  rwa [parseNat_natRepr, parseNat_natRepr] at h2

theorem candidate_injective (safe : List Char) : Function.Injective (candidate safe) := by
  intro i j h
  cases i with
  | zero =>
    cases j with
    | zero => rfl
    | succ k =>
      exfalso
      unfold candidate at h
      have h2 := List.append_cancel_left h
      simp at h2
  | succ i =>
    cases j with
    | zero =>
      exfalso
      unfold candidate at h
      have h2 := List.append_cancel_left h
      simp at h2
    | succ j =>
      unfold candidate at h
      have h2 := List.append_cancel_left h
      injection h2 with _ h3
      have h4 := List.append_cancel_right h3
      rw [natRepr_injective h4]

theorem exists_free_candidate (existing : List (List Char)) (safe : List Char) :
    ∃ j, j ≤ existing.length ∧ candidate safe j ∉ existing := by
  by_contra hcon
  push_neg at hcon
  have hmap : (List.range (existing.length + 1)).map (candidate safe) ⊆ existing := by
    intro x hx
    rcases List.mem_map.mp hx with ⟨j, hj, rfl⟩
    exact hcon j (Nat.lt_succ_iff.mp (List.mem_range.mp hj))
  have hnodup : ((List.range (existing.length + 1)).map (candidate safe)).Nodup :=
    List.Nodup.map (candidate_injective safe) (List.nodup_range _)
  have h1 : ((List.range (existing.length + 1)).map (candidate safe)).toFinset.card
      = existing.length + 1 := by
    rw [List.toFinset_card_of_nodup hnodup, List.length_map, List.length_range]
  have h2 : ((List.range (existing.length + 1)).map (candidate safe)).toFinset
      ⊆ existing.toFinset := by
    intro x hx
    rw [List.mem_toFinset] at hx ⊢
    exact hmap hx
  have h3 := Finset.card_le_card h2
  have h4 := List.toFinset_card_le existing
  omega

theorem findFree_spec (existing : List (List Char)) (safe : List Char) :
    ∀ (fuel k : Nat), (∃ j, j < fuel ∧ candidate safe (k + j) ∉ existing) →
      ∃ j, j < fuel ∧ findFree existing safe k fuel = candidate safe (k + j) ∧
        candidate safe (k + j) ∉ existing ∧
        ∀ m, m < j → candidate safe (k + m) ∈ existing := by
  intro fuel
  induction fuel with
  | zero =>
    intro k h
    rcases h with ⟨j, hj, _⟩
    omega
  | succ fuel ih =>
    intro k h
    by_cases hk : candidate safe k ∈ existing
    · rcases h with ⟨j, hj, hfree⟩
      have hj0 : j ≠ 0 := by
        rintro rfl
        rw [Nat.add_zero] at hfree
        exact hfree hk
      obtain ⟨j1, rfl⟩ : ∃ j1, j = j1 + 1 := ⟨j - 1, by omega⟩
      have hrec := ih (k + 1)
        ⟨j1, by omega, by rwa [show k + 1 + j1 = k + (j1 + 1) by omega]⟩
      rcases hrec with ⟨j2, hj2, heq, hfree2, hmin⟩
      refine ⟨j2 + 1, by omega, ?_, ?_, ?_⟩
      · unfold findFree
        rw [if_pos hk, heq]
        congr 1
        omega
      · rwa [show k + (j2 + 1) = k + 1 + j2 by omega]
      · intro m hm
        cases m with
        | zero =>
          rw [Nat.add_zero]
          exact hk
        | succ m1 =>
          have hmem := hmin m1 (by omega)
          rwa [show k + (m1 + 1) = k + 1 + m1 by omega]
    · refine ⟨0, by omega, ?_, ?_, fun m hm => by omega⟩
      · unfold findFree
        rw [if_neg hk, Nat.add_zero]
      · rw [Nat.add_zero]
        exact hk

theorem save_filename_fresh (existing : List (List Char)) (safe : List Char) :
    save_filename existing safe ∉ existing := by
  have hex : ∃ j, j < existing.length + 1 ∧ candidate safe (0 + j) ∉ existing := by
    rcases exists_free_candidate existing safe with ⟨j, hj, hfree⟩
    exact ⟨j, by omega, by rwa [Nat.zero_add]⟩
  obtain ⟨j, _, heq, hfree, _⟩ := findFree_spec existing safe (existing.length + 1) 0 hex
  rw [show save_filename existing safe = findFree existing safe 0 (existing.length + 1)
    from rfl, heq]
  exact hfree

/-- Claim C2: the artifact write never overwrites: the chosen path is never
one of the existing files; it is reached by probing `{safe}.md`,
`{safe}_1.md`, `{safe}_2.md`, … in order, every earlier probe having hit an
existing file; writing a second item with the same sanitized name yields a
distinct file, and with no prior collision the two files are `{safe}.md`
and `{safe}_1.md`. -/
theorem save_to_markdown_never_overwrites :
    ∀ (existing : List (List Char)) (safe : List Char),
      save_filename existing safe ∉ existing ∧
      (∃ k, save_filename existing safe = candidate safe k ∧
        ∀ m, m < k → candidate safe m ∈ existing) ∧
      save_filename (save_filename existing safe :: existing) safe ≠
        save_filename existing safe ∧
      save_filename [] safe = safe ++ ['.', 'm', 'd'] ∧
      save_filename [safe ++ ['.', 'm', 'd']] safe =
        safe ++ '_' :: (natRepr 1 ++ ['.', 'm', 'd']) := by
  intro existing safe
  have hex : ∃ j, j < existing.length + 1 ∧ candidate safe (0 + j) ∉ existing := by
    rcases exists_free_candidate existing safe with ⟨j, hj, hfree⟩
    exact ⟨j, by omega, by rwa [Nat.zero_add]⟩
  obtain ⟨j, _, heq, hfree, hmin⟩ := findFree_spec existing safe (existing.length + 1) 0 hex
  have hsave : save_filename existing safe = candidate safe j := by
    rw [show save_filename existing safe = findFree existing safe 0 (existing.length + 1)
      from rfl, heq, Nat.zero_add]
  refine ⟨?_, ⟨j, hsave, ?_⟩, ?_, ?_, ?_⟩
  · rw [hsave]
    rwa [Nat.zero_add] at hfree
  · intro m hm
    have := hmin m hm
    rwa [Nat.zero_add] at this
  · intro hcon
    have hfresh := save_filename_fresh (save_filename existing safe :: existing) safe
    rw [hcon] at hfresh
    exact hfresh (List.mem_cons_self _ _)
  · rfl
  · have hne : candidate safe 1 ∉ [safe ++ ['.', 'm', 'd']] := by
      intro hmem
      rcases List.mem_singleton.mp hmem with h
      have h0 : candidate safe 1 = candidate safe 0 := h
      have := candidate_injective safe h0
      omega
    have hmem0 : candidate safe 0 ∈ [safe ++ ['.', 'm', 'd']] :=
      List.mem_singleton.mpr rfl
    show findFree [safe ++ ['.', 'm', 'd']] safe 0 2 = _
    unfold findFree
    rw [if_pos hmem0]
    unfold findFree
    rw [if_neg hne]
    rfl

/-! ### Character lemmas for `sanitize_filename` -/

theorem mem_collapseWs : ∀ (l : List Char) (c : Char),
    c ∈ collapseWs l → c = ' ' ∨ c ∈ l
  | [], c, h => by simp [collapseWs] at h
  | [d], c, h => by
    simp only [collapseWs] at h
    split at h
    · exact Or.inl (List.mem_singleton.mp h)
    · exact Or.inr h
  | a :: d :: rest, c, h => by
    simp only [collapseWs] at h
    split at h
    · rcases mem_collapseWs (d :: rest) c h with h1 | h1
      · exact Or.inl h1
      · exact Or.inr (List.mem_cons_of_mem _ h1)
    · rcases List.mem_cons.mp h with h1 | h1
      · split at h1
        · exact Or.inl h1
        · exact Or.inr (h1 ▸ List.mem_cons_self a _)
      · rcases mem_collapseWs (d :: rest) c h1 with h2 | h2
        · exact Or.inl h2
        · exact Or.inr (List.mem_cons_of_mem _ h2)

theorem stripEnds_subset (p : Char → Bool) (l : List Char) : stripEnds p l ⊆ l := by
  intro c hc
  unfold stripEnds at hc
  rw [List.mem_reverse] at hc
  have h1 := (List.dropWhile_sublist p).subset hc
  rw [List.mem_reverse] at h1
  exact (List.dropWhile_sublist p).subset h1

theorem stripEnds_length_le (p : Char → Bool) (l : List Char) :
    (stripEnds p l).length ≤ l.length := by
  unfold stripEnds
  rw [List.length_reverse]
  calc (List.dropWhile p (l.dropWhile p).reverse).length
      ≤ (l.dropWhile p).reverse.length := (List.dropWhile_sublist p).length_le
    _ = (l.dropWhile p).length := List.length_reverse _
    _ ≤ l.length := (List.dropWhile_sublist p).length_le

theorem mem_of_mem_ite {P : Prop} [Decidable P] {a b : List Char} {x : Char}
    (h : x ∈ (if P then a else b)) : x ∈ a ∨ x ∈ b := by
  split at h
  · exact Or.inl h
  · exact Or.inr h

theorem sanitizeList_illegal_free (l : List Char) (maxLength : Nat) :
    ∀ c ∈ sanitizeList l maxLength, isIllegal c = false := by
  intro c hc
  unfold sanitizeList at hc
  dsimp only at hc
  have hs2 : ∀ d ∈ stripEnds pyWs (collapseWs (l.map fun c =>
      if isIllegal c then '_' else c)), isIllegal d = false := by
    intro d hd
    rcases mem_collapseWs _ d (stripEnds_subset _ _ hd) with h | h
    · rw [h]
      decide
    · rcases List.mem_map.mp h with ⟨a, _, rfl⟩
      by_cases ha : isIllegal a = true
      · rw [if_pos ha]
        decide
      · rw [if_neg ha]
        exact Bool.not_eq_true _ ▸ ha
  have huntitled : ∀ d ∈ "untitled".data, isIllegal d = false := by decide
  rcases mem_of_mem_ite hc with h | h
  · exact huntitled c h
  · rcases mem_of_mem_ite h with h2 | h2
    · exact hs2 c (stripEnds_subset _ _ (List.take_subset _ _ (stripEnds_subset _ _ h2)))
    · exact hs2 c (stripEnds_subset _ _ h2)

theorem ite_untitled_ne_nil (b : List Char) :
    (if b.isEmpty then "untitled".data else b) ≠ [] := by
  split
  · decide
  · rename_i h
    intro he
    exact h (by simp [he])

theorem sanitizeList_ne_nil (l : List Char) (maxLength : Nat) :
    sanitizeList l maxLength ≠ [] := by
  unfold sanitizeList
  dsimp only
  exact ite_untitled_ne_nil _

theorem ite_untitled_length (b : List Char) (m : Nat) (hb : b.length ≤ m) :
    (if b.isEmpty then "untitled".data else b) = "untitled".data ∨
      (if b.isEmpty then "untitled".data else b).length ≤ m := by
  split
  · exact Or.inl rfl
  · exact Or.inr hb

theorem sanitizeList_length (l : List Char) (maxLength : Nat) :
    sanitizeList l maxLength = "untitled".data ∨
      (sanitizeList l maxLength).length ≤ maxLength := by
  unfold sanitizeList
  dsimp only
  apply ite_untitled_length
  split
  · calc (stripEnds pyWs ((stripEnds (fun c => c = '.')
        (stripEnds pyWs (collapseWs (l.map fun c =>
          if isIllegal c then '_' else c)))).take maxLength)).length
        ≤ ((stripEnds (fun c => c = '.')
          (stripEnds pyWs (collapseWs (l.map fun c =>
            if isIllegal c then '_' else c)))).take maxLength).length :=
          stripEnds_length_le _ _
      _ ≤ maxLength := by
          rw [List.length_take]
          omega
  · rename_i h
    omega

/-- Claim C7 counterexample: on input `"."` with `max_length = 3` the
sanitized result is the fallback `"untitled"`, whose length 8 exceeds the
positive bound 3 — the claimed `length ≤ max_length` fails. -/
theorem sanitize_filename_untitled_exceeds_max :
    sanitize_filename "." 3 = "untitled" ∧
      ¬((sanitize_filename "." 3).length ≤ 3) := by decide

/-- Claim C7 (amended): `sanitize_filename` is total and deterministic; for
every input and positive bound the result is non-empty and free of the
characters `<>:"/\|?*`, and its length is at most `max_length` except when
the empty-result fallback applies, in which case the result is the literal
`"untitled"` (of length 8, which may exceed a smaller bound). -/
theorem sanitize_filename_safe :
    ∀ (filename : String) (maxLength : Nat), 0 < maxLength →
      sanitize_filename filename maxLength ≠ "" ∧
      (∀ c ∈ (sanitize_filename filename maxLength).data, isIllegal c = false) ∧
      (sanitize_filename filename maxLength = "untitled" ∨
        (sanitize_filename filename maxLength).length ≤ maxLength) := by
  intro filename maxLength _
  refine ⟨?_, ?_, ?_⟩
  · intro h
    rw [String.ext_iff] at h
    exact sanitizeList_ne_nil filename.data maxLength h
  · exact sanitizeList_illegal_free filename.data maxLength
  · rcases sanitizeList_length filename.data maxLength with h | h
    · exact Or.inl (String.ext_iff.mpr h)
    · exact Or.inr h

/-- Concrete instance of claim C7: sanitizing `"Video: <Test>/Name?"` with
bound 100 gives a non-empty, bounded name with no illegal characters. -/
theorem sanitize_filename_safe_witness :
    0 < 100 ∧
      (sanitize_filename "Video: <Test>/Name?" 100 ≠ "" ∧
        (∀ c ∈ (sanitize_filename "Video: <Test>/Name?" 100).data,
          isIllegal c = false) ∧
        (sanitize_filename "Video: <Test>/Name?" 100 = "untitled" ∨
          (sanitize_filename "Video: <Test>/Name?" 100).length ≤ 100)) :=
  ⟨by decide, sanitize_filename_safe "Video: <Test>/Name?" 100 (by decide)⟩

/-- Claim C8: `clean_markdown_content` unescapes the literal two-character
escapes without corrupting a genuine literal backslash: the seven
characters `a \ n b \ \ c` become `a`, a real newline, `b`, one literal
backslash, `c`; a doubled backslash in front of an `n` protects the `n`
from being unescaped; lone escapes for tab and double quote are unescaped
as well. -/
theorem clean_markdown_backslash_unescape :
    clean_markdown_content "a\\nb\\\\c" = "a\nb\\c" ∧
      clean_markdown_content "x\\\\ny" = "x\\ny" ∧
      clean_markdown_content "p\\tq" = "p\tq" ∧
      clean_markdown_content "u\\\"v" = "u\"v" := by decide

/-! ### First-match characterization of `List.find?` -/

theorem find?_eq_some_of_first {α : Type} (p : α → Bool) :
    ∀ (l : List α) (i : Nat) (hi : i < l.length),
      p (l.get ⟨i, hi⟩) = true →
      (∀ j (hj : j < l.length), j < i → p (l.get ⟨j, hj⟩) = false) →
      l.find? p = some (l.get ⟨i, hi⟩)
  | [], i, hi, _, _ => absurd hi (by simp)
  | a :: l, 0, hi, hp, _ => by
    rw [List.find?_cons]
    have ha : p a = true := hp
    rw [ha]
    rfl
  | a :: l, i + 1, hi, hp, hmin => by
    have ha : p a = false := hmin 0 (Nat.succ_pos _) (Nat.succ_pos i)
    rw [List.find?_cons, ha]
    show List.find? p l = some ((a :: l).get ⟨i + 1, hi⟩)
    have hi2 : i < l.length := Nat.lt_of_succ_lt_succ hi
    have hp2 : p (l.get ⟨i, hi2⟩) = true := hp
    have hmin2 : ∀ j (hj : j < l.length), j < i → p (l.get ⟨j, hj⟩) = false := by
      intro j hj hji
      exact hmin (j + 1) (Nat.succ_lt_succ hj) (Nat.succ_lt_succ hji)
    exact find?_eq_some_of_first p l i hi2 hp2 hmin2

/-- Claim C5 counterexample: with a first track carrying only usable raw
content `"a"` and a second track carrying rewritten content `"b"`, the
result is `"b"` — the second track's rewritten text — not the cleaned
content `"a"` of the first track in order that yields non-blank content,
so resolution is not per-track with the first track winning. -/
theorem extract_subtitle_not_per_track :
    extract_subtitle_content true [Subtitle.mk "" "a", Subtitle.mk "b" ""] = "b" ∧
      nonBlank (Subtitle.mk "" "a").content = true ∧
      clean_markdown_content "a" = "a" ∧
      ("b" : String) ≠ "a" := by decide

/-- Claim C5 (amended): content resolution is two-pass over the whole
group: the first track in original order with non-blank rewritten content
wins with its cleaned rewritten text (placeholder if it cleans to blank),
even when an earlier track has non-blank raw content; only when no track
has non-blank rewritten content does the first track with non-blank raw
content win likewise; and when no track yields usable text the result is
the literal placeholder `"无视频字幕"` rather than an error. -/
theorem extract_subtitle_two_pass :
    ∀ (subtitles : List Subtitle),
      ((∀ s ∈ subtitles, nonBlank s.reformatted_content = false ∧
          nonBlank s.content = false) →
        extract_subtitle_content true subtitles = "无视频字幕") ∧
      (∀ i (hi : i < subtitles.length),
        nonBlank (subtitles.get ⟨i, hi⟩).reformatted_content = true →
        (∀ j (hj : j < subtitles.length), j < i →
          nonBlank (subtitles.get ⟨j, hj⟩).reformatted_content = false) →
        extract_subtitle_content true subtitles =
          (if clean_markdown_content (subtitles.get ⟨i, hi⟩).reformatted_content = ""
            then "无视频字幕"
            else clean_markdown_content (subtitles.get ⟨i, hi⟩).reformatted_content)) ∧
      ((∀ s ∈ subtitles, nonBlank s.reformatted_content = false) →
        ∀ i (hi : i < subtitles.length),
        nonBlank (subtitles.get ⟨i, hi⟩).content = true →
        (∀ j (hj : j < subtitles.length), j < i →
          nonBlank (subtitles.get ⟨j, hj⟩).content = false) →
        extract_subtitle_content true subtitles =
          (if clean_markdown_content (subtitles.get ⟨i, hi⟩).content = ""
            then "无视频字幕"
            else clean_markdown_content (subtitles.get ⟨i, hi⟩).content)) := by
  intro subtitles
  refine ⟨?_, ?_, ?_⟩
  · intro h
    have hf1 : subtitles.find? (fun s => nonBlank s.reformatted_content) = none :=
      List.find?_eq_none.mpr fun s hs => by simp [(h s hs).1]
    have hf2 : subtitles.find? (fun s => nonBlank s.content) = none :=
      List.find?_eq_none.mpr fun s hs => by simp [(h s hs).2]
    by_cases hemp : subtitles.isEmpty <;>
      simp [extract_subtitle_content, hemp, hf1, hf2]
  · intro i hi hp hmin
    have hf := find?_eq_some_of_first (fun s => nonBlank s.reformatted_content)
      subtitles i hi hp hmin
    have hemp : subtitles.isEmpty = false := by
      cases subtitles
      · simp at hi
      · rfl
    simp [extract_subtitle_content, hemp, hf]
  · intro hall i hi hp hmin
    have hf1 : subtitles.find? (fun s => nonBlank s.reformatted_content) = none :=
      List.find?_eq_none.mpr fun s hs => by simp [hall s hs]
    have hf := find?_eq_some_of_first (fun s => nonBlank s.content)
      subtitles i hi hp hmin
    have hemp : subtitles.isEmpty = false := by
      cases subtitles
      · simp at hi
      · rfl
    simp [extract_subtitle_content, hemp, hf1, hf]

/-- Concrete instances of claim C5: a group with no usable text yields the
placeholder; the first track with non-blank rewritten content wins; with no
rewritten content anywhere, the first track with non-blank raw content wins. -/
theorem extract_subtitle_two_pass_witness :
    extract_subtitle_content true [Subtitle.mk "" ""] = "无视频字幕" ∧
      extract_subtitle_content true [Subtitle.mk "" "raw", Subtitle.mk "fmt" ""] = "fmt" ∧
      extract_subtitle_content true [Subtitle.mk "" "raw"] = "raw" := by
  refine ⟨?_, ?_, ?_⟩
  · exact (extract_subtitle_two_pass [Subtitle.mk "" ""]).1 (by decide)
  · have h := (extract_subtitle_two_pass [Subtitle.mk "" "raw", Subtitle.mk "fmt" ""]).2.1
      1 (by decide) (by decide) (by decide)
    rw [h]
    decide
  · have h := (extract_subtitle_two_pass [Subtitle.mk "" "raw"]).2.2
      (by decide) 0 (by decide) (by decide) (by decide)
    rw [h]
    decide

/-- Claim C6 counterexample: a single track with an empty (missing)
language tag does not carry the `"ai-"` marker, yet `_select_subtitles`
returns the empty list rather than the group containing that track —
the preferred group requires a *non-empty* tag, not merely one that does
not start with `"ai-"`. -/
theorem select_subtitles_excludes_untagged :
    pyStartsWith (Track.mk "").lan "ai-" = false ∧
      _select_subtitles [Track.mk ""] = [] ∧
      _select_subtitles [Track.mk ""] ≠ [Track.mk ""] := by decide

/-- Claim C6 (amended): `_select_subtitles` returns, in strict priority,
the group of all tracks whose tag is non-empty and does not start with
`"ai-"` when at least one such track exists; otherwise the tracks tagged
exactly `"ai-zh"` if any; otherwise the empty list. -/
theorem select_subtitles_priority :
    ∀ (subtitles : List Track),
      ((∃ s ∈ subtitles, s.lan ≠ "" ∧ pyStartsWith s.lan "ai-" = false) →
        _select_subtitles subtitles = original_subtitles subtitles ∧
          original_subtitles subtitles ≠ []) ∧
      ((∀ s ∈ subtitles, s.lan = "" ∨ pyStartsWith s.lan "ai-" = true) →
        (∃ s ∈ subtitles, s.lan = "ai-zh") →
        _select_subtitles subtitles = ai_zh_subtitles subtitles ∧
          ai_zh_subtitles subtitles ≠ []) ∧
      ((∀ s ∈ subtitles, (s.lan = "" ∨ pyStartsWith s.lan "ai-" = true) ∧
          s.lan ≠ "ai-zh") →
        _select_subtitles subtitles = []) := by
  intro subtitles
  refine ⟨?_, ?_, ?_⟩
  · rintro ⟨s, hs, h1, h2⟩
    have hne : original_subtitles subtitles ≠ [] := by
      intro he
      rw [original_subtitles, List.filter_eq_nil_iff] at he
      exact he s hs (by simp [h1, h2])
    refine ⟨?_, hne⟩
    unfold _select_subtitles
    rw [if_pos (by simpa [List.isEmpty_iff] using hne)]
  · intro hall
    rintro ⟨s, hs, hzh⟩
    have horig : original_subtitles subtitles = [] := by
      rw [original_subtitles, List.filter_eq_nil_iff]
      intro a ha
      rcases hall a ha with h | h <;> simp [h]
    have hne : ai_zh_subtitles subtitles ≠ [] := by
      intro he
      rw [ai_zh_subtitles, List.filter_eq_nil_iff] at he
      exact he s hs (by simp [hzh])
    refine ⟨?_, hne⟩
    unfold _select_subtitles
    rw [horig]
    rw [if_neg (by simp)]
    rw [if_pos (by simpa [List.isEmpty_iff] using hne)]
  · intro hall
    have horig : original_subtitles subtitles = [] := by
      rw [original_subtitles, List.filter_eq_nil_iff]
      intro a ha
      rcases (hall a ha).1 with h | h <;> simp [h]
    have haizh : ai_zh_subtitles subtitles = [] := by
      rw [ai_zh_subtitles, List.filter_eq_nil_iff]
      intro a ha
      simp [(hall a ha).2]
    unfold _select_subtitles
    rw [horig, haizh]
    simp

/-- Concrete instances of claim C6: a human track beats a machine
`"ai-zh"` track and the machine track is dropped entirely; with only
`"ai-"` tracks the `"ai-zh"` one is selected; with neither, selection is
empty. -/
theorem select_subtitles_priority_witness :
    _select_subtitles [Track.mk "zh", Track.mk "ai-zh"] = [Track.mk "zh"] ∧
      _select_subtitles [Track.mk "ai-en", Track.mk "ai-zh"] = [Track.mk "ai-zh"] ∧
      _select_subtitles [Track.mk "ai-en"] = [] := by
  refine ⟨?_, ?_, ?_⟩
  · have h := (select_subtitles_priority [Track.mk "zh", Track.mk "ai-zh"]).1
      ⟨Track.mk "zh", by decide, by decide, by decide⟩
    rw [h.1]
    decide
  · have h := (select_subtitles_priority [Track.mk "ai-en", Track.mk "ai-zh"]).2.1
      (by decide) ⟨Track.mk "ai-zh", by decide, by decide⟩
    rw [h.1]
    decide
  · exact (select_subtitles_priority [Track.mk "ai-en"]).2.2 (by decide)

/-- Claim C10: a track whose language tag is missing or empty is never in
the preferred human-caption group, and when every track's tag is empty the
selection is the empty list even though no tag starts with `"ai-"`. -/
theorem select_subtitles_ignores_empty_lan :
    ∀ (subtitles : List Track),
      (∀ t ∈ original_subtitles subtitles, t.lan ≠ "") ∧
      ((∀ s ∈ subtitles, s.lan = "") → _select_subtitles subtitles = []) := by
  intro subtitles
  constructor
  · intro t ht
    have := (List.mem_filter.mp ht).2
    simp only [Bool.and_eq_true, decide_eq_true_eq] at this
    exact this.1
  · intro hall
    have horig : original_subtitles subtitles = [] := by
      rw [original_subtitles, List.filter_eq_nil_iff]
      intro a ha
      simp [hall a ha]
    have haizh : ai_zh_subtitles subtitles = [] := by
      rw [ai_zh_subtitles, List.filter_eq_nil_iff]
      intro a ha
      simp [hall a ha]
    unfold _select_subtitles
    rw [horig, haizh]
    simp

/-- Concrete instance of claim C10: two untagged tracks produce an empty
selection. -/
theorem select_subtitles_ignores_empty_lan_witness :
    _select_subtitles [Track.mk "", Track.mk ""] = [] :=
  (select_subtitles_ignores_empty_lan [Track.mk "", Track.mk ""]).2 (by decide)

/-- Concrete instance of claim C4: after a first run over `["b", "a"]`
appended the snapshot `(["a", "b"], 2)`, a second run against that
snapshot's set computes an empty delta, writes nothing and appends no
snapshot. -/
theorem first_run_full_delta_and_idempotence_witness :
    (sync_run ["b", "a"] ∅ (fun _ => true)).snapshot = some (["a", "b"], 2) ∧
      (compare_and_filter ["b", "a"] (["a", "b"] : List String).toFinset = [] ∧
        (sync_run ["b", "a"] (["a", "b"] : List String).toFinset
          (fun _ => true)).written = [] ∧
        (sync_run ["b", "a"] (["a", "b"] : List String).toFinset
          (fun _ => true)).snapshot = none) :=
  ⟨by decide,
    (first_run_full_delta_and_idempotence ["b", "a"] ∅ (fun _ => true)
      (["a", "b"], 2)).2.2 (by decide)⟩
